import Mathlib

/-!
Verification of the core logic of the `svelte-docs-server` package
(`src/svelte-docs-server/src/index.ts`): document segmentation,
slug derivation, the fetch/retry pipeline, relevance scoring, the
two-pass search assembly, and the resource URI handlers.

JavaScript strings are modelled as Lean `String` (`List Char` under the
hood); all character-level operations are restricted to the ASCII
fragment actually exercised by the program (`\s` is modelled by the ASCII
whitespace characters, `toLowerCase` by the ASCII case map).
-/

/-- Decidable equality for `Except`, needed to evaluate closed equations
about fallible operations. -/
instance exceptDecEq {ε α : Type} [DecidableEq ε] [DecidableEq α] : DecidableEq (Except ε α) :=
  fun a b =>
    match a, b with
    | Except.ok x, Except.ok y =>
      match decEq x y with
      | isTrue h => isTrue (by rw [h])
      | isFalse h => isFalse (by intro hc; cases hc; exact h rfl)
    | Except.error x, Except.error y =>
      match decEq x y with
      | isTrue h => isTrue (by rw [h])
      | isFalse h => isFalse (by intro hc; cases hc; exact h rfl)
    | Except.ok _, Except.error _ => isFalse (by intro hc; cases hc)
    | Except.error _, Except.ok _ => isFalse (by intro hc; cases hc)

/-- ASCII fragment of the JavaScript `\s` character class (space, tab,
line feed, vertical tab, form feed, carriage return). -/
def jsIsWs (c : Char) : Bool :=
  c = ' ' || c = '\t' || c = '\n' || c = '\x0b' || c = '\x0c' || c = '\r'

/-- ASCII fragment of JavaScript `String.prototype.toLowerCase` on a
single character: `'A'`–`'Z'` map to `'a'`–`'z'`, everything else is
unchanged. -/
def jsToLowerChar : Char → Char
  | 'A' => 'a' | 'B' => 'b' | 'C' => 'c' | 'D' => 'd' | 'E' => 'e' | 'F' => 'f'
  | 'G' => 'g' | 'H' => 'h' | 'I' => 'i' | 'J' => 'j' | 'K' => 'k' | 'L' => 'l'
  | 'M' => 'm' | 'N' => 'n' | 'O' => 'o' | 'P' => 'p' | 'Q' => 'q' | 'R' => 'r'
  | 'S' => 's' | 'T' => 't' | 'U' => 'u' | 'V' => 'v' | 'W' => 'w' | 'X' => 'x'
  | 'Y' => 'y' | 'Z' => 'z'
  | c => c

/-- JavaScript `toLowerCase` (ASCII fragment). -/
def jsToLower (s : String) : String :=
  String.mk (s.data.map jsToLowerChar)

/-- Character-list form of JavaScript `String.prototype.trim` (ASCII
whitespace): drop leading and trailing whitespace. -/
def jsTrimChars (l : List Char) : List Char :=
  ((l.dropWhile jsIsWs).reverse.dropWhile jsIsWs).reverse

/-- JavaScript `trim` on strings. -/
def jsTrim (s : String) : String :=
  String.mk (jsTrimChars s.data)

/-- JavaScript `content.split('\n')` on a character list: split at every
newline, keeping empty pieces (`"".split` gives `[""]`). -/
def splitNl : List Char → List (List Char)
  | [] => [[]]
  | c :: rest =>
    if c = '\n' then [] :: splitNl rest
    else
      match splitNl rest with
      | [] => [[c]]
      | t :: ts => (c :: t) :: ts

/-- Worker for JavaScript `query.split(/\s+/)` (ASCII fragment): every
maximal whitespace run is one separator; the pieces between separators
are returned, including empty pieces at the boundaries.  The first
argument records whether the previous character was part of a
whitespace run; the second accumulates the current piece in reverse. -/
def jsSplitWsGo : Bool → List Char → List Char → List (List Char)
  | _, acc, [] => [acc.reverse]
  | prevWs, acc, c :: rest =>
    if jsIsWs c then
      if prevWs then jsSplitWsGo true acc rest
      else acc.reverse :: jsSplitWsGo true [] rest
    else jsSplitWsGo false (c :: acc) rest

/-- JavaScript `query.split(/\s+/)` (ASCII fragment). -/
def jsSplitWs (s : String) : List String :=
  (jsSplitWsGo false [] s.data).map String.mk

/-- Character-list form of JavaScript `String.prototype.includes`:
substring containment. -/
def jsIncludesChars : List Char → List Char → Bool
  | [], p => p.isEmpty
  | c :: rest, p => p.isPrefixOf (c :: rest) || jsIncludesChars rest p

/-- JavaScript `t.includes(p)`. -/
def jsIncludes (t p : String) : Bool :=
  jsIncludesChars t.data p.data

/-- Data model of `interface DocumentationLine` (index.ts:14-17). -/
structure DocumentationLine where
  text : String
  isHeader : Bool
  deriving DecidableEq

/-- Data model of `interface DocumentationSection` (index.ts:19-23). -/
structure DocumentationSection where
  id : String
  header : String
  content : List String
  deriving DecidableEq

/-- Character class `[a-z0-9]` of the slug regex (index.ts:118). -/
def isLowerAlnum (c : Char) : Bool :=
  decide ('a' ≤ c ∧ c ≤ 'z') || decide ('0' ≤ c ∧ c ≤ '9')

/-- Worker for `replace(/[^a-z0-9]+/g, '-')` (index.ts:118): every
maximal run of characters outside `[a-z0-9]` becomes a single `'-'`.
The boolean records whether the previous character was inside such a
run. -/
def collapseGo : Bool → List Char → List Char
  | _, [] => []
  | inRun, c :: rest =>
    if isLowerAlnum c then c :: collapseGo false rest
    else if inRun then collapseGo true rest
    else '-' :: collapseGo true rest

/-- JavaScript `replace(/^#+\s*/, '')` (index.ts:118): if the string
starts with `'#'`, remove the leading run of `'#'` characters and the
following whitespace run; otherwise leave it unchanged. -/
def stripLeadingMarker (l : List Char) : List Char :=
  if l.head? = some '#' then (l.dropWhile (fun c => c = '#')).dropWhile jsIsWs else l

/-- Slug derivation of index.ts:118:
`text.toLowerCase().replace(/[^a-z0-9]+/g, '-').replace(/^#+\s*/, '')`.
Note the second `replace` runs on the output of the first. -/
def slugify (t : String) : String :=
  String.mk (stripLeadingMarker (collapseGo false (t.data.map jsToLowerChar)))

/-- Header text of the synthetic leading section (index.ts:108). -/
def synthHeader : String := "# Start of Svelte documentation"

/-- Synthetic leading section created before the line walk
(index.ts:106-110). -/
def initialSection : DocumentationSection :=
  { id := "start-of-svelte-documentation", header := synthHeader, content := [] }

/-- Line preprocessing of index.ts:90-95: split the fetched text on
newlines, drop lines that are blank after trimming, and mark the
trimmed survivors as headers when they start with `"# "`. -/
def mkLines (content : String) : List DocumentationLine :=
  ((splitNl content.data).filter (fun r => decide (0 < (jsTrimChars r).length))).map
    (fun r =>
      { text := String.mk (jsTrimChars r)
        isHeader := "# ".data.isPrefixOf (jsTrimChars r) })

/-- One step of the `lines.forEach` walk of index.ts:112-125: a header
line whose (re-)trimmed text differs from the synthetic header closes
the current section and opens a new one with the slugified id; every
other line (including a header equal to the synthetic header text) is
appended to the current section's content. -/
def segStep (acc : List DocumentationSection × DocumentationSection)
    (line : DocumentationLine) : List DocumentationSection × DocumentationSection :=
  if line.isHeader ∧ jsTrim line.text ≠ synthHeader then
    (acc.1 ++ [acc.2], { id := slugify line.text, header := line.text, content := [] })
  else
    (acc.1, { acc.2 with content := acc.2.content ++ [jsTrim line.text] })

/-- Full line walk of index.ts:102-130: fold the lines starting from the
synthetic section, then append the final current section. -/
def segmentLines (lines : List DocumentationLine) : List DocumentationSection :=
  match lines.foldl segStep ([], initialSection) with
  | (done, cur) => done ++ [cur]

/-- Pure body of one fetch attempt after the HTTP response arrived
(index.ts:84-135): reject empty content, split into lines, reject a
blank document, build the section list, and (defensively) reject an
empty section list. -/
def processDocumentation (content : String) : Except String (List DocumentationSection) :=
  if content = "" then Except.error "Received empty content from documentation URL"
  else if mkLines content = [] then Except.error "No content lines found in documentation"
  else if segmentLines (mkLines content) = [] then
    Except.error "No documentation sections were loaded"
  else Except.ok (segmentLines (mkLines content))

/-- One attempt of the retry loop (index.ts:72-99): the network outcome
is abstracted as `Except.error msg` (network failure, timeout, or
non-ok HTTP status) or `Except.ok content`; a delivered body is then
segmented.  On failure the previously published section list is kept
(all throws happen before `documentationSections` is reassigned). -/
def attemptStep (outcome : Except String String) :
    Except String (List DocumentationSection) :=
  match outcome with
  | Except.error e => Except.error e
  | Except.ok content => processDocumentation content

/-- Retry loop of index.ts:69-146: up to `retries` attempts, consuming
one abstract network outcome per attempt.  The accumulated `error`
variable is set on every failed attempt and — exactly as in the source —
is NOT cleared when a later attempt succeeds and breaks out of the
loop.  Returns the final `error` variable and the final published
section list.  (Outcome lists shorter than the number of attempts the
loop would make are never used by the theorems below.) -/
def fetchLoop : Nat → Option String → List (Except String String) →
    List DocumentationSection → Option String × List DocumentationSection
  | 0, err, _, secs => (err, secs)
  | _ + 1, err, [], secs => (err, secs)
  | r + 1, err, o :: rest, secs =>
    match attemptStep o with
    | Except.ok newSecs => (err, newSecs)
    | Except.error e => fetchLoop r (some e) rest secs

/-- Model of `fetchDocumentation` (index.ts:68-153): run the retry loop
with 3 attempts, then throw if the `error` variable is set (message
`"Failed to fetch documentation after all retries: ..."`), then throw
if the published section list is empty.  Returns the thrown/normal
outcome together with the final published section list. -/
def fetchDocumentation (outcomes : List (Except String String))
    (prev : List DocumentationSection) : Except String Unit × List DocumentationSection :=
  match fetchLoop 3 none outcomes prev with
  | (some e, secs) =>
    (Except.error ("Failed to fetch documentation after all retries: " ++ e), secs)
  | (none, secs) =>
    if secs = [] then (Except.error "No documentation sections were loaded", secs)
    else (Except.ok (), secs)

/-- Items of the regular-expression fragment used to model
`new RegExp(word, 'g')` (index.ts:29): a literal character or the `.`
wildcard.  This models the constructor faithfully for `word`s that
contain no regex metacharacter other than `'.'`; `.` is modelled as
matching any character (the inputs scanned here are single lines, so
the line-terminator exception is irrelevant). -/
inductive RItem where
  | lit (c : Char)
  | dot
  deriving DecidableEq

/-- Does the pattern match a prefix of the character list?  Every item
consumes exactly one character. -/
def rmatchAt : List RItem → List Char → Bool
  | [], _ => true
  | _ :: _, [] => false
  | RItem.lit d :: is, c :: cs => d == c && rmatchAt is cs
  | RItem.dot :: is, _ :: cs => rmatchAt is cs

/-- Fuel-driven scan counting the non-overlapping, leftmost matches of a
fixed-length pattern, as `String.prototype.match` with the `g` flag
does.  One unit of fuel is spent per scanned position, so fuel equal to
the list length (as supplied by `regexCountMatches`) always suffices. -/
def regexCountGo (p : List RItem) : Nat → List Char → Nat
  | 0, _ => 0
  | _ + 1, [] => 0
  | fuel + 1, c :: rest =>
    if rmatchAt p (c :: rest) then 1 + regexCountGo p fuel (rest.drop (p.length - 1))
    else regexCountGo p fuel rest

/-- Number of global-regex matches of `p` in `cs`. -/
def regexCountMatches (p : List RItem) (cs : List Char) : Nat :=
  regexCountGo p cs.length cs

/-- Compile a word into the modelled pattern: `'.'` becomes the
wildcard, every other character is a literal.  Faithful to
`new RegExp(word, 'g')` for words without other metacharacters. -/
def compilePattern (w : List Char) : List RItem :=
  w.map (fun c => if c = '.' then RItem.dot else RItem.lit c)

/-- Model of `countOccurrences` (index.ts:28-31):
`(text.toLowerCase().match(new RegExp(word.toLowerCase(), 'g')) || []).length`.
The empty pattern matches once at every position including the end. -/
def countOccurrences (text word : String) : Nat :=
  if (jsToLower word).data = [] then (jsToLower text).data.length + 1
  else regexCountMatches (compilePattern (jsToLower word).data) (jsToLower text).data

/-- Fuel-driven scan counting non-overlapping, leftmost occurrences of
the LITERAL word `w`, mirroring the structure of `regexCountGo`. -/
def literalCountGo (w : List Char) : Nat → List Char → Nat
  | 0, _ => 0
  | _ + 1, [] => 0
  | fuel + 1, c :: rest =>
    if w.isPrefixOf (c :: rest) then 1 + literalCountGo w fuel (rest.drop (w.length - 1))
    else literalCountGo w fuel rest

/-- Modelled from the spec: the per-token "raw occurrence count within
the line text (case-insensitive substring count)" — the token treated
as a literal string, counting non-overlapping leftmost occurrences
case-insensitively.  This is the comparison definition for claim C5;
`countOccurrences` above is the one embedded from the source. -/
def literalOccurrenceCount (text word : String) : Nat :=
  if (jsToLower word).data = [] then (jsToLower text).data.length + 1
  else literalCountGo (jsToLower word).data (jsToLower text).data.length (jsToLower text).data

/-- Model of `getRelevanceScore` (index.ts:34-66).  Note that `words`
re-splits the RAW query on `/\s+/` without discarding empty tokens, so
a single word surrounded by whitespace takes the multi-word path. -/
def getRelevanceScore (text query : String) (isHdr : Bool) : Nat :=
  if (jsSplitWs query).length = 1 then
    if isHdr ∧ jsIncludes (jsToLower text) (jsToLower query) then 10000
    else if jsIncludes (jsToLower text) (jsToLower query) then 1000
    else 0
  else if jsIncludes (jsToLower text) (jsToLower query) then (if isHdr then 10000 else 1000)
  else
    if 1 < ((jsSplitWs query).filter
        (fun w => jsIncludes (jsToLower text) (jsToLower w))).length then
      ((jsSplitWs query).filter (fun w => jsIncludes (jsToLower text) (jsToLower w))).length *
        (if isHdr then 800 else 400)
    else 0

/-- Scored content line of the search handler (index.ts:266-280): a
content line with its owning header, the exact-match score
`max(headerScore, lineScore)`, the per-token occurrence counts, and the
`relevanceScore` weight attached during the per-token pass (0 until
that pass assigns it). -/
structure ScoredLine where
  header : String
  text : String
  exactScore : Nat
  wordScores : List (String × Nat)
  relevanceScore : Nat
  deriving DecidableEq

/-- Tokenisation of the handler (index.ts:254):
`query.split(/\s+/).filter(word => word.length > 0)`. -/
def queryWordsOf (query : String) : List String :=
  (jsSplitWs query).filter (fun w => decide (0 < w.data.length))

/-- Model of the `allContent` construction (index.ts:266-280). -/
def buildScored (sections : List DocumentationSection) (query : String)
    (queryWords : List String) : List ScoredLine :=
  sections.flatMap (fun sec =>
    sec.content.map (fun text =>
      { header := sec.header
        text := text
        exactScore := max (getRelevanceScore sec.header query true)
          (getRelevanceScore text query false)
        wordScores := queryWords.map (fun w => (w, countOccurrences text w))
        relevanceScore := 0 }))

/-- Stable insertion of `x` into a list sorted descending by `key`:
`x` is placed before the first element with a key not larger than its
own, preserving the original relative order of equal keys. -/
def insDesc (key : ScoredLine → Nat) (x : ScoredLine) : List ScoredLine → List ScoredLine
  | [] => [x]
  | y :: rest => if key y ≤ key x then x :: y :: rest else y :: insDesc key x rest

/-- Stable descending sort by a numeric key, modelling the stable
JavaScript `Array.prototype.sort` with comparator `(a, b) => key(b) -
key(a)` (stable sorting determines the output uniquely). -/
def sortDescBy (key : ScoredLine → Nat) (l : List ScoredLine) : List ScoredLine :=
  l.foldr (insDesc key) []

/-- Exact-match pass (index.ts:283-285): lines with positive
`exactScore`, sorted descending by that score. -/
def exactPass (allContent : List ScoredLine) : List ScoredLine :=
  sortDescBy (fun it => it.exactScore) (allContent.filter (fun it => decide (0 < it.exactScore)))

/-- Lookup `wordScores.find(s => s.word === word)?.frequency || 0`
(index.ts:300-301). -/
def freqOf (it : ScoredLine) (w : String) : Nat :=
  match it.wordScores.find? (fun s => s.fst == w) with
  | some s => s.snd
  | none => 0

/-- Per-token pass for one token (index.ts:288-308): lines where the
token occurs, weighted 100 when the owning header contains the token
(case-insensitively) and 1 otherwise, sorted descending by
`relevanceScore * frequency`, truncated to 3. -/
def tokenPass (allContent : List ScoredLine) (w : String) : List ScoredLine :=
  (sortDescBy (fun it => it.relevanceScore * freqOf it w)
    ((allContent.filter
        (fun it => it.wordScores.any (fun s => s.fst == w && decide (0 < s.snd)))).map
      (fun it =>
        { it with
          relevanceScore := if jsIncludes (jsToLower it.header) (jsToLower w) then 100
            else 1 }))).take 3

/-- Deduplication by exact line text, first occurrence wins
(index.ts:312-313, the `Set`/`find` combination): `seen` is the set of
texts already emitted. -/
def dedupByTextGo (seen : List String) : List ScoredLine → List ScoredLine
  | [] => []
  | x :: rest =>
    if x.text ∈ seen then dedupByTextGo seen rest
    else x :: dedupByTextGo (x.text :: seen) rest

/-- The `allContent` list of a search call (index.ts:266-280). -/
def allContentFor (sections : List DocumentationSection) (query : String) : List ScoredLine :=
  buildScored sections query (queryWordsOf query)

/-- The concatenation `[...exactMatches, ...wordResults]`
(index.ts:311). -/
def combinedFor (sections : List DocumentationSection) (query : String) : List ScoredLine :=
  exactPass (allContentFor sections query) ++
    (queryWordsOf query).flatMap (tokenPass (allContentFor sections query))

/-- The `uniqueResults` list (index.ts:312-314): deduplicate the
concatenation by line text and truncate to 3. -/
def uniqueResultsFor (sections : List DocumentationSection) (query : String) : List ScoredLine :=
  (dedupByTextGo [] (combinedFor sections query)).take 3

/-- Observable outcome of the `search_docs` tool handler
(index.ts:251-326): the invalid-query prompt
(`"Please provide a valid search query"`), the no-matches sentinel
(`"No matches found"`), or the rendered result lines. -/
inductive SearchOutcome where
  | invalidQuery
  | noMatches
  | results (rendered : List String)
  deriving DecidableEq

/-- Model of the `search_docs` handler (index.ts:251-326).  The guard on
zero query tokens fires before any scoring; otherwise the two passes
are assembled, deduplicated, truncated, and rendered as
`"[<header>] <text>"`, with the empty final list mapped to the
no-matches sentinel. -/
def searchDocs (sections : List DocumentationSection) (query : String) : SearchOutcome :=
  if queryWordsOf query = [] then SearchOutcome.invalidQuery
  else if uniqueResultsFor sections query = [] then SearchOutcome.noMatches
  else SearchOutcome.results
    ((uniqueResultsFor sections query).map (fun r => "[" ++ r.header ++ "] " ++ r.text))

/-- Drop an expected prefix from a character list, returning the
remainder on success. -/
def dropPfx : List Char → List Char → Option (List Char)
  | [], l => some l
  | _ :: _, [] => none
  | p :: ps, c :: cs => if p = c then dropPfx ps cs else none

/-- Model of the read-resource URI pattern
`/^svelte:\/\/\/section\/([^/]+)(\/content)?$/` (index.ts:199): after
the fixed prefix, the id is the maximal nonempty run of non-`'/'`
characters, optionally followed by exactly `"/content"`. -/
def parseSectionUri (u : List Char) : Option (List Char × Bool) :=
  match dropPfx "svelte:///section/".data u with
  | none => none
  | some rest =>
    if rest.takeWhile (fun c => c != '/') = [] then none
    else if rest.dropWhile (fun c => c != '/') = [] then
      some (rest.takeWhile (fun c => c != '/'), false)
    else if rest.dropWhile (fun c => c != '/') = "/content".data then
      some (rest.takeWhile (fun c => c != '/'), true)
    else none

/-- JavaScript `section.content.join('\n')`. -/
def joinNl : List String → String
  | [] => ""
  | [s] => s
  | s :: rest => s ++ "\n" ++ joinNl rest

/-- Model of the ReadResourceRequest handler (index.ts:198-226): parse
the URI, find the FIRST section with the requested id, and return its
header (or its joined content, erroring when the content is empty). -/
def readResource (sections : List DocumentationSection) (uri : String) : Except String String :=
  match parseSectionUri uri.data with
  | none => Except.error ("Invalid URI format: " ++ uri)
  | some (seg, isContent) =>
    match sections.find? (fun s => s.id == String.mk seg) with
    | none => Except.error ("Documentation section " ++ String.mk seg ++ " not found")
    | some sec =>
      if isContent then
        if sec.content = [] then
          Except.error ("Section " ++ String.mk seg ++ " has no content. Header: " ++ sec.header)
        else Except.ok (joinNl sec.content)
      else Except.ok sec.header

/-- URIs advertised by the ListResourcesRequest handler
(index.ts:179-195): for every section, the header URI and the content
URI, in section order. -/
def listResources (sections : List DocumentationSection) : List String :=
  sections.flatMap (fun sec =>
    ["svelte:///section/" ++ sec.id, "svelte:///section/" ++ sec.id ++ "/content"])

/-- Characters that can occur in a produced slug: `[a-z0-9-]`. -/
def isSlugChar (c : Char) : Prop :=
  ('a' ≤ c ∧ c ≤ 'z') ∨ ('0' ≤ c ∧ c ≤ '9') ∨ c = '-'

instance (c : Char) : Decidable (isSlugChar c) := by
  unfold isSlugChar; infer_instance

/-- Spec-side description of the segmenter's content lines: every line
of the input that is non-empty after trimming, trimmed, in original
order. -/
def trimmedLines (content : String) : List String :=
  (((splitNl content.data).map jsTrimChars).filter (fun r => decide (0 < r.length))).map
    String.mk

/-- First index of a line with the given text, used to state result
positions. -/
def idxOfText (t : String) : List ScoredLine → Option Nat
  | [] => none
  | x :: rest => if x.text = t then some 0 else (idxOfText t rest).map (· + 1)

/-- Set of seen texts after the dedup walk processed a list. -/
def seenAfter (seen : List String) : List ScoredLine → List String
  | [] => seen
  | x :: rest =>
    if x.text ∈ seen then seenAfter seen rest else seenAfter (x.text :: seen) rest

/-- Well-formedness of a produced section id: nonempty and made only of
characters in `[a-z0-9-]`. -/
def GoodSlugId (id : String) : Prop :=
  id.data ≠ [] ∧ ∀ c ∈ id.data, isSlugChar c

/-- Small concrete section list used by the witnesses. -/
def demoSections : List DocumentationSection :=
  [{ id := "routing", header := "# Routing", content := ["Use a router."] }]

/-! Generic list helpers. -/

/-- Dropping while a predicate holds can only shorten a list. -/
theorem dropWhile_length_le {α : Type} (p : α → Bool) :
    ∀ l : List α, (l.dropWhile p).length ≤ l.length := by
  intro l
  induction l with
  | nil => simp
  | cons c rest ih =>
    by_cases h : p c
    · rw [List.dropWhile_cons, if_pos h]
      exact Nat.le_trans ih (Nat.le_succ _)
    · rw [List.dropWhile_cons, if_neg h]

/-- `dropWhile` is idempotent. -/
theorem dropWhile_self {α : Type} (p : α → Bool) (l : List α) :
    (l.dropWhile p).dropWhile p = l.dropWhile p := by
  induction l with
  | nil => simp
  | cons c rest ih =>
    by_cases h : p c
    · rw [List.dropWhile_cons, if_pos h, ih]
    · rw [List.dropWhile_cons, if_neg h, List.dropWhile_cons, if_neg h]

/-- `takeWhile` keeps everything when the predicate holds everywhere. -/
theorem takeWhile_all {α : Type} {p : α → Bool} :
    ∀ l : List α, (∀ c ∈ l, p c = true) → l.takeWhile p = l := by
  intro l
  induction l with
  | nil => simp
  | cons c rest ih =>
    intro h
    rw [List.takeWhile_cons, if_pos (h c (List.mem_cons_self c rest))]
    rw [ih (fun d hd => h d (List.mem_cons_of_mem c hd))]

/-- `dropWhile` drops everything when the predicate holds everywhere. -/
theorem dropWhile_all {α : Type} {p : α → Bool} :
    ∀ l : List α, (∀ c ∈ l, p c = true) → l.dropWhile p = [] := by
  intro l
  induction l with
  | nil => simp
  | cons c rest ih =>
    intro h
    rw [List.dropWhile_cons, if_pos (h c (List.mem_cons_self c rest))]
    exact ih (fun d hd => h d (List.mem_cons_of_mem c hd))

/-- A `flatMap` whose every piece is empty is empty. -/
theorem flatMap_nil {α β : Type} (f : α → List β) :
    ∀ l : List α, (∀ x ∈ l, f x = []) → l.flatMap f = [] := by
  intro l
  induction l with
  | nil => simp
  | cons x rest ih =>
    intro h
    rw [List.flatMap_cons, h x (List.mem_cons_self x rest)]
    exact ih (fun y hy => h y (List.mem_cons_of_mem x hy))

/-! Trimming: `jsTrimChars` is idempotent. -/

/-- Trimming the tail of a list whose head is already trimmed keeps the
head trimmed. -/
theorem revTrim_headFixed (p : Char → Bool) (l : List Char) (h : l.dropWhile p = l) :
    ((l.reverse.dropWhile p).reverse).dropWhile p = (l.reverse.dropWhile p).reverse := by
  cases l with
  | nil => simp
  | cons c rest =>
    have hc : p c = false := by
      by_contra hb
      have hb' : p c = true := by revert hb; cases p c <;> simp
      rw [List.dropWhile_cons, if_pos hb'] at h
      have hlen := dropWhile_length_le p rest
      rw [h] at hlen
      simp at hlen
    rw [List.reverse_cons, List.dropWhile_append]
    by_cases he : (rest.reverse.dropWhile p).isEmpty
    · rw [if_pos he]
      rw [List.dropWhile_cons, if_neg (by simp [hc])]
      simp [List.dropWhile_cons, hc]
    · rw [if_neg he]
      rw [List.reverse_append]
      simp [List.dropWhile_cons, hc]

/-- Idempotence of the character-level trim. -/
theorem jsTrimChars_idem (l : List Char) : jsTrimChars (jsTrimChars l) = jsTrimChars l := by
  unfold jsTrimChars
  rw [revTrim_headFixed jsIsWs (l.dropWhile jsIsWs) (dropWhile_self jsIsWs l)]
  rw [List.reverse_reverse, dropWhile_self]

/-- Idempotence of the string-level trim. -/
theorem jsTrim_idem (s : String) : jsTrim (jsTrim s) = jsTrim s := by
  unfold jsTrim
  exact congrArg String.mk (jsTrimChars_idem s.data)

/-! Segmentation without header lines (claim C9). -/

/-- When no line is a header, the walk never opens a section: everything
is appended to the current section's content. -/
theorem segFold_no_header (lines : List DocumentationLine)
    (h : ∀ l ∈ lines, l.isHeader = false) :
    ∀ done cur, lines.foldl segStep (done, cur) =
      (done, { cur with content := cur.content ++ lines.map (fun l => jsTrim l.text) }) := by
  induction lines with
  | nil => intro done cur; simp
  | cons x rest ih =>
    intro done cur
    have hx : x.isHeader = false := h x (List.mem_cons_self x rest)
    rw [List.foldl_cons]
    have hstep : segStep (done, cur) x =
        (done, { cur with content := cur.content ++ [jsTrim x.text] }) := by
      unfold segStep
      rw [if_neg]
      intro hcontra
      rw [hx] at hcontra
      simp at hcontra
    rw [hstep, ih (fun l hl => h l (List.mem_cons_of_mem x hl))]
    simp [List.append_assoc]

/-- The texts pushed by the walk are exactly the trimmed non-blank lines
of the input. -/
theorem mkLines_trim_texts (content : String) :
    (mkLines content).map (fun l => jsTrim l.text) = trimmedLines content := by
  unfold mkLines trimmedLines
  rw [List.map_map, List.filter_map, List.map_map]
  apply List.map_congr_left
  intro r _
  show jsTrim (String.mk (jsTrimChars r)) = String.mk (jsTrimChars r)
  unfold jsTrim
  exact congrArg String.mk (jsTrimChars_idem r)

/-! Slug well-formedness and the resource URI round trip (claim C10). -/

/-- Every character emitted by the run-collapsing replace is in
`[a-z0-9-]`. -/
theorem collapseGo_chars : ∀ (b : Bool) (l : List Char), ∀ c ∈ collapseGo b l, isSlugChar c := by
  intro b l
  induction l generalizing b with
  | nil => intro c hc; simp [collapseGo] at hc
  | cons d rest ih =>
    intro c hc
    unfold collapseGo at hc
    by_cases hd : isLowerAlnum d
    · rw [if_pos hd] at hc
      rcases List.mem_cons.mp hc with h | h
      · subst h
        unfold isLowerAlnum at hd
        unfold isSlugChar
        rcases Bool.or_eq_true _ _ |>.mp hd with h' | h'
        · exact Or.inl (of_decide_eq_true h')
        · exact Or.inr (Or.inl (of_decide_eq_true h'))
      · exact ih false c h
    · rw [if_neg hd] at hc
      by_cases hb : b
      · rw [if_pos hb] at hc
        exact ih true c hc
      · rw [if_neg hb] at hc
        rcases List.mem_cons.mp hc with h | h
        · subst h; unfold isSlugChar; exact Or.inr (Or.inr rfl)
        · exact ih true c h

/-- Collapsing a nonempty list yields a nonempty list when no run is
already open. -/
theorem collapseGo_ne_nil (l : List Char) (h : l ≠ []) : collapseGo false l ≠ [] := by
  cases l with
  | nil => exact absurd rfl h
  | cons c rest =>
    unfold collapseGo
    by_cases hc : isLowerAlnum c
    · rw [if_pos hc]; simp
    · rw [if_neg hc, if_neg (by simp)]; simp

/-- A slug character is not `'#'`. -/
theorem isSlugChar_ne_hash (c : Char) (h : isSlugChar c) : c ≠ '#' := by
  intro hc
  subst hc
  revert h
  decide

/-- A slug character is not `'/'`. -/
theorem isSlugChar_ne_slash (c : Char) (h : isSlugChar c) : c ≠ '/' := by
  intro hc
  subst hc
  revert h
  decide

/-- Slugs of nonempty header texts are nonempty and use only
`[a-z0-9-]`; in particular the trailing `replace(/^#+\s*/, '')` never
fires, because the collapsed string contains no `'#'`. -/
theorem slugify_good (t : String) (h : t.data ≠ []) : GoodSlugId (slugify t) := by
  have hmap : t.data.map jsToLowerChar ≠ [] := by
    intro hc
    exact h (List.map_eq_nil_iff.mp hc)
  have hne := collapseGo_ne_nil (t.data.map jsToLowerChar) hmap
  have hchars := collapseGo_chars false (t.data.map jsToLowerChar)
  have hstrip : stripLeadingMarker (collapseGo false (t.data.map jsToLowerChar)) =
      collapseGo false (t.data.map jsToLowerChar) := by
    unfold stripLeadingMarker
    rw [if_neg]
    intro hhead
    cases hm : collapseGo false (t.data.map jsToLowerChar) with
    | nil => exact hne hm
    | cons c rest =>
      rw [hm] at hhead
      simp at hhead
      exact isSlugChar_ne_hash c (hchars c (by rw [hm]; exact List.mem_cons_self c rest)) hhead
  unfold GoodSlugId slugify
  rw [hstrip]
  exact ⟨hne, hchars⟩

/-- The synthetic id is well formed. -/
theorem initialSection_good : GoodSlugId initialSection.id := by
  unfold GoodSlugId initialSection
  refine ⟨by decide, ?_⟩
  decide

/-- Invariant of the line walk: starting from well-formed ids, with every
line text nonempty, all ids in the accumulator stay well formed. -/
theorem segFold_good (lines : List DocumentationLine)
    (hl : ∀ l ∈ lines, l.text.data ≠ []) :
    ∀ done cur, (∀ s ∈ done, GoodSlugId s.id) → GoodSlugId cur.id →
      (∀ s ∈ (lines.foldl segStep (done, cur)).1, GoodSlugId s.id) ∧
        GoodSlugId (lines.foldl segStep (done, cur)).2.id := by
  induction lines with
  | nil => intro done cur hdone hcur; exact ⟨hdone, hcur⟩
  | cons x rest ih =>
    intro done cur hdone hcur
    rw [List.foldl_cons]
    have hrest : ∀ l ∈ rest, l.text.data ≠ [] :=
      fun l hm => hl l (List.mem_cons_of_mem x hm)
    unfold segStep
    by_cases hcond : x.isHeader ∧ jsTrim x.text ≠ synthHeader
    · rw [if_pos hcond]
      apply ih hrest
      · intro s hs
        rcases List.mem_append.mp hs with h | h
        · exact hdone s h
        · rcases List.mem_singleton.mp h with rfl
          exact hcur
      · exact slugify_good x.text (hl x (List.mem_cons_self x rest))
    · rw [if_neg hcond]
      exact ih hrest done _ hdone hcur

/-- Every line produced by `mkLines` has nonempty text. -/
theorem mkLines_text_ne_nil (content : String) :
    ∀ l ∈ mkLines content, l.text.data ≠ [] := by
  intro l hl
  unfold mkLines at hl
  rcases List.mem_map.mp hl with ⟨r, hr, rfl⟩
  rcases List.mem_filter.mp hr with ⟨_, hlen⟩
  have hpos : 0 < (jsTrimChars r).length := of_decide_eq_true hlen
  show jsTrimChars r ≠ []
  intro hc
  rw [hc] at hpos
  simp at hpos

/-- Every section produced by a successful segmentation has a
well-formed id. -/
theorem processDocumentation_good (content : String)
    (sections : List DocumentationSection)
    (hok : processDocumentation content = Except.ok sections) :
    ∀ sec ∈ sections, GoodSlugId sec.id := by
  unfold processDocumentation at hok
  by_cases h1 : content = ""
  · rw [if_pos h1] at hok; cases hok
  rw [if_neg h1] at hok
  by_cases h2 : mkLines content = []
  · rw [if_pos h2] at hok; cases hok
  rw [if_neg h2] at hok
  by_cases h3 : segmentLines (mkLines content) = []
  · rw [if_pos h3] at hok; cases hok
  rw [if_neg h3] at hok
  cases hok
  intro sec hsec
  unfold segmentLines at hsec
  have hfold := segFold_good (mkLines content) (mkLines_text_ne_nil content) [] initialSection
    (by intro s hs; simp at hs) initialSection_good
  revert hsec
  cases hpair : (mkLines content).foldl segStep ([], initialSection) with
  | mk done cur =>
    intro hsec
    rw [hpair] at hfold
    rcases List.mem_append.mp hsec with h | h
    · exact hfold.1 sec h
    · rcases List.mem_singleton.mp h with rfl
      exact hfold.2

/-- Dropping a concatenated prefix succeeds and returns the rest. -/
theorem dropPfx_append (p : List Char) : ∀ r : List Char, dropPfx p (p ++ r) = some r := by
  induction p with
  | nil => intro r; rfl
  | cons c cs ih =>
    intro r
    show (if c = c then dropPfx cs (cs ++ r) else none) = some r
    rw [if_pos rfl]
    exact ih r

/-- String concatenation concatenates the underlying character lists. -/
theorem str_data_append (a b : String) : (a ++ b).data = a.data ++ b.data := by
  cases a; cases b; rfl

/-- A well-formed id, appended to the section prefix, parses back to
exactly that id with the header (non-content) flavour. -/
theorem parseSectionUri_good (id : String) (h : GoodSlugId id) :
    parseSectionUri ("svelte:///section/" ++ id).data = some (id.data, false) := by
  have hslash : ∀ c ∈ id.data, (c != '/') = true := by
    intro c hc
    exact bne_iff_ne.mpr (isSlugChar_ne_slash c (h.2 c hc))
  have hdata : ("svelte:///section/" ++ id).data = "svelte:///section/".data ++ id.data :=
    str_data_append _ _
  unfold parseSectionUri
  rw [hdata, dropPfx_append]
  show (if id.data.takeWhile (fun c => c != '/') = [] then none
    else if id.data.dropWhile (fun c => c != '/') = [] then
      some (id.data.takeWhile (fun c => c != '/'), false)
    else if id.data.dropWhile (fun c => c != '/') = "/content".data then
      some (id.data.takeWhile (fun c => c != '/'), true)
    else none) = some (id.data, false)
  rw [takeWhile_all id.data hslash, dropWhile_all id.data hslash]
  rw [if_neg h.1]
  rfl

/-! Occurrence counting: literal words behave like literal substrings
(claim C5). -/

/-- A pattern of literals matches a prefix exactly like `isPrefixOf`. -/
theorem rmatch_lits (l : List Char) : ∀ cs : List Char,
    rmatchAt (l.map RItem.lit) cs = l.isPrefixOf cs := by
  induction l with
  | nil => intro cs; simp [rmatchAt]
  | cons d ds ih =>
    intro cs
    cases cs with
    | nil => rfl
    | cons c cs' =>
      show (d == c && rmatchAt (ds.map RItem.lit) cs') = (d == c && ds.isPrefixOf cs')
      rw [ih cs']

/-- The regex scan over a pattern of literals counts exactly like the
literal scan, fuel for fuel. -/
theorem countGo_eq (l : List Char) : ∀ (fuel : Nat) (cs : List Char),
    regexCountGo (l.map RItem.lit) fuel cs = literalCountGo l fuel cs := by
  intro fuel
  induction fuel with
  | zero => intro cs; rfl
  | succ n ih =>
    intro cs
    cases cs with
    | nil => rfl
    | cons c rest =>
      show (if rmatchAt (l.map RItem.lit) (c :: rest) = true then
          1 + regexCountGo (l.map RItem.lit) n (rest.drop ((l.map RItem.lit).length - 1))
        else regexCountGo (l.map RItem.lit) n rest) =
        (if l.isPrefixOf (c :: rest) = true then
          1 + literalCountGo l n (rest.drop (l.length - 1))
        else literalCountGo l n rest)
      rw [rmatch_lits l (c :: rest), List.length_map]
      by_cases h : l.isPrefixOf (c :: rest) = true
      · rw [if_pos h, if_pos h, ih]
      · rw [if_neg h, if_neg h, ih]

/-- Compiling a dot-free word yields a pattern of literals. -/
theorem compilePattern_no_dot (w : List Char) (h : ∀ c ∈ w, c ≠ '.') :
    compilePattern w = w.map RItem.lit := by
  unfold compilePattern
  apply List.map_congr_left
  intro c hc
  rw [if_neg (h c hc)]

/-- Lowercasing never produces a `'.'` from another character. -/
theorem jsToLowerChar_ne_dot (c : Char) (h : c ≠ '.') : jsToLowerChar c ≠ '.' := by
  unfold jsToLowerChar
  split <;> first | decide | exact h

/-- A dot-free word stays dot-free after lowercasing. -/
theorem jsToLower_no_dot (w : String) (h : '.' ∉ w.data) :
    ∀ c ∈ (jsToLower w).data, c ≠ '.' := by
  intro c hc
  have hdata : (jsToLower w).data = w.data.map jsToLowerChar := rfl
  rw [hdata] at hc
  rcases List.mem_map.mp hc with ⟨d, hd, rfl⟩
  exact jsToLowerChar_ne_dot d (fun hdc => h (hdc ▸ hd))

/-! Deduplication (claim C6). -/

/-- The seen set only grows during the dedup walk. -/
theorem seenAfter_mono (l : List ScoredLine) :
    ∀ (seen : List String) (x : String), x ∈ seen → x ∈ seenAfter seen l := by
  induction l with
  | nil => intro seen x hx; exact hx
  | cons y rest ih =>
    intro seen x hx
    unfold seenAfter
    by_cases hy : y.text ∈ seen
    · rw [if_pos hy]; exact ih seen x hx
    · rw [if_neg hy]; exact ih _ x (List.mem_cons_of_mem _ hx)

/-- Every processed text ends up in the seen set. -/
theorem mem_seenAfter (l : List ScoredLine) :
    ∀ (seen : List String) (t : String), t ∈ l.map ScoredLine.text → t ∈ seenAfter seen l := by
  induction l with
  | nil => intro seen t ht; simp at ht
  | cons y rest ih =>
    intro seen t ht
    rcases List.mem_map.mp ht with ⟨z, hz, rfl⟩
    rcases List.mem_cons.mp hz with rfl | hz'
    · unfold seenAfter
      by_cases hy : z.text ∈ seen
      · rw [if_pos hy]; exact seenAfter_mono rest seen _ hy
      · rw [if_neg hy]; exact seenAfter_mono rest _ _ (List.mem_cons_self _ _)
    · unfold seenAfter
      by_cases hy : y.text ∈ seen
      · rw [if_pos hy]; exact ih seen _ (List.mem_map.mpr ⟨z, hz', rfl⟩)
      · rw [if_neg hy]; exact ih _ _ (List.mem_map.mpr ⟨z, hz', rfl⟩)

/-- The dedup walk distributes over concatenation. -/
theorem dedup_append (B A : List ScoredLine) :
    ∀ seen, dedupByTextGo seen (A ++ B) =
      dedupByTextGo seen A ++ dedupByTextGo (seenAfter seen A) B := by
  induction A with
  | nil => intro seen; rfl
  | cons x rest ih =>
    intro seen
    rw [List.cons_append]
    have e1 : dedupByTextGo seen (x :: (rest ++ B)) =
        if x.text ∈ seen then dedupByTextGo seen (rest ++ B)
        else x :: dedupByTextGo (x.text :: seen) (rest ++ B) := rfl
    have e2 : dedupByTextGo seen (x :: rest) =
        if x.text ∈ seen then dedupByTextGo seen rest
        else x :: dedupByTextGo (x.text :: seen) rest := rfl
    have e3 : seenAfter seen (x :: rest) =
        if x.text ∈ seen then seenAfter seen rest else seenAfter (x.text :: seen) rest := rfl
    rw [e1, e2, e3]
    by_cases hx : x.text ∈ seen
    · rw [if_pos hx, if_pos hx, if_pos hx, ih seen]
    · rw [if_neg hx, if_neg hx, if_neg hx, ih (x.text :: seen)]
      rfl

/-- A text occurs in the dedup output exactly once when it occurs in the
input and is not already seen, and never otherwise. -/
theorem countP_dedup (t : String) (l : List ScoredLine) :
    ∀ seen, (dedupByTextGo seen l).countP (fun r => decide (r.text = t)) =
      if t ∈ seen then 0 else if t ∈ l.map ScoredLine.text then 1 else 0 := by
  induction l with
  | nil =>
    intro seen
    by_cases h : t ∈ seen
    · rw [if_pos h]; rfl
    · rw [if_neg h]; simp [dedupByTextGo]
  | cons x rest ih =>
    intro seen
    have e1 : dedupByTextGo seen (x :: rest) =
        if x.text ∈ seen then dedupByTextGo seen rest
        else x :: dedupByTextGo (x.text :: seen) rest := rfl
    rw [e1]
    by_cases hx : x.text ∈ seen
    · rw [if_pos hx, ih seen]
      by_cases ht : t ∈ seen
      · rw [if_pos ht, if_pos ht]
      · rw [if_neg ht, if_neg ht]
        have hne : t ≠ x.text := fun he => ht (by rw [he]; exact hx)
        by_cases hr : t ∈ rest.map ScoredLine.text
        · rw [if_pos hr, if_pos (by rw [List.map_cons]; exact List.mem_cons_of_mem _ hr)]
        · rw [if_neg hr, if_neg (by
            rw [List.map_cons]
            intro hmem
            rcases List.mem_cons.mp hmem with he | hm
            · exact hne he
            · exact hr hm)]
    · rw [if_neg hx, List.countP_cons, ih (x.text :: seen)]
      simp only [List.map_cons, List.mem_cons, decide_eq_true_eq]
      by_cases hxt : x.text = t
      · by_cases ht : t ∈ seen <;> by_cases hr : t ∈ rest.map ScoredLine.text <;> simp_all
      · have hxt2 : ¬t = x.text := fun h => hxt h.symm
        by_cases ht : t ∈ seen <;> by_cases hr : t ∈ rest.map ScoredLine.text <;> simp_all

/-- An unseen input text occurs in the dedup output. -/
theorem mem_dedup (t : String) (l : List ScoredLine) :
    ∀ seen, t ∉ seen → t ∈ l.map ScoredLine.text →
      t ∈ (dedupByTextGo seen l).map ScoredLine.text := by
  induction l with
  | nil => intro seen _ ht; simp at ht
  | cons x rest ih =>
    intro seen hseen ht
    have e1 : dedupByTextGo seen (x :: rest) =
        if x.text ∈ seen then dedupByTextGo seen rest
        else x :: dedupByTextGo (x.text :: seen) rest := rfl
    rw [e1]
    by_cases hx : x.text ∈ seen
    · rw [if_pos hx]
      have hne : t ≠ x.text := fun he => hseen (he ▸ hx)
      apply ih seen hseen
      rw [List.map_cons] at ht
      rcases List.mem_cons.mp ht with he | hm
      · exact absurd he hne
      · exact hm
    · rw [if_neg hx, List.map_cons]
      by_cases hxt : t = x.text
      · rw [hxt]; exact List.mem_cons_self _ _
      · apply List.mem_cons_of_mem
        apply ih (x.text :: seen)
        · intro hc
          rcases List.mem_cons.mp hc with he | hm
          · exact hxt he
          · exact hseen hm
        · rw [List.map_cons] at ht
          rcases List.mem_cons.mp ht with he | hm
          · exact absurd he hxt
          · exact hm

/-- A present text has an index. -/
theorem idxOfText_isSome (t : String) :
    ∀ l : List ScoredLine, t ∈ l.map ScoredLine.text → ∃ i, idxOfText t l = some i := by
  intro l
  induction l with
  | nil => intro h; simp at h
  | cons x rest ih =>
    intro h
    unfold idxOfText
    by_cases hx : x.text = t
    · rw [if_pos hx]; exact ⟨0, rfl⟩
    · rw [if_neg hx]
      rw [List.map_cons] at h
      rcases List.mem_cons.mp h with he | hm
      · exact absurd he.symm hx
      · rcases ih hm with ⟨i, hi⟩
        exact ⟨i + 1, by rw [hi]; rfl⟩

/-- An index found in a prefix is the index in the whole list. -/
theorem idxOfText_append (t : String) (B A : List ScoredLine) :
    ∀ i, idxOfText t A = some i → idxOfText t (A ++ B) = some i := by
  induction A with
  | nil => intro i hi; cases hi
  | cons x rest ih =>
    intro i hi
    rw [List.cons_append]
    unfold idxOfText at hi ⊢
    by_cases hx : x.text = t
    · rw [if_pos hx] at hi ⊢; exact hi
    · rw [if_neg hx] at hi ⊢
      cases hr : idxOfText t rest with
      | none => rw [hr] at hi; cases hi
      | some j =>
        rw [hr] at hi
        rw [ih j hr]
        exact hi

/-- Truncation cannot increase an occurrence count. -/
theorem countP_take_le (p : ScoredLine → Bool) (n : Nat) (l : List ScoredLine) :
    (l.take n).countP p ≤ l.countP p :=
  List.Sublist.countP_le p (List.take_sublist n l)

/-! Claim theorems. -/

/-- Claim C1, counterexample: on the input
`"# Start of Svelte documentation\nHello world\n# Routing\nUse a router."`
the code produces a first section whose content is
`["# Start of Svelte documentation", "Hello world"]`, not
`["Hello world"]`: the header line equal to the synthetic leading header
does not start a new section, but it IS pushed into the current
section's content (index.ts:122-124), contrary to the claim that it
appears in no section's content. -/
theorem c1_counterexample :
    processDocumentation
        "# Start of Svelte documentation\nHello world\n# Routing\nUse a router." =
      Except.ok
        [{ id := "start-of-svelte-documentation",
           header := "# Start of Svelte documentation",
           content := ["# Start of Svelte documentation", "Hello world"] },
         { id := "-routing", header := "# Routing", content := ["Use a router."] }] ∧
      (["# Start of Svelte documentation", "Hello world"] : List String) ≠ ["Hello world"] :=
  ⟨by decide, by decide⟩

/-- Claim C1, amended: segmentation of that input produces exactly two
sections, the first with header `"# Start of Svelte documentation"` and
content `["# Start of Svelte documentation", "Hello world"]` (the
synthetic-matching header line does not open a new section but is
appended to the current section's content), followed by one with header
`"# Routing"` and content `["Use a router."]`. -/
theorem c1_corrected_thm :
    processDocumentation
        "# Start of Svelte documentation\nHello world\n# Routing\nUse a router." =
      Except.ok
        [{ id := "start-of-svelte-documentation",
           header := "# Start of Svelte documentation",
           content := ["# Start of Svelte documentation", "Hello world"] },
         { id := "-routing", header := "# Routing", content := ["Use a router."] }] := by
  decide

/-- Claim C2: the claim says the slug of a header `"# <word>"` begins
with a lowercase letter or digit after the leading marker/separator
residue is stripped.  The code's stripping step `replace(/^#+\s*/, '')`
runs AFTER all `'#'` and whitespace were already collapsed to `'-'`, so
it can never match: the slug of `"# Routing"` is `"-routing"`, which
begins with the separator `'-'`, not a letter or digit.  The dead strip
step in the source documents the stripping intent, so this is recorded
as a code bug. -/
theorem c2_code_bug_slug :
    slugify "# Routing" = "-routing" ∧
      (slugify "# Routing").data.head? = some '-' ∧ isLowerAlnum '-' = false :=
  ⟨by decide, by decide, by decide⟩

/-- Claim C3: the claim says the fetch-then-segment pipeline is fatal
iff all 3 attempts fail, and returns normally whenever some attempt
succeeds.  In the code the `error` variable set by a failed attempt is
never cleared by a later successful attempt, so a failure followed by a
success still throws `"Failed to fetch documentation after all
retries"` — even though the section list WAS replaced by the successful
attempt.  The thrown message contradicts the actual control flow, so
this is recorded as a code bug. -/
theorem c3_code_bug_fetch :
    fetchDocumentation [Except.error "network failure", Except.ok "# A\nhello"] [] =
      (Except.error "Failed to fetch documentation after all retries: network failure",
       [{ id := "start-of-svelte-documentation",
          header := "# Start of Svelte documentation", content := [] },
        { id := "-a", header := "# A", content := ["hello"] }]) := by
  decide

/-- Claim C4, counterexample: the query `" foo"` has exactly one
non-empty token after the handler's tokenisation, and the non-header
text `"foo bar"` contains it, so the claimed single-token rule gives
1000; but `getRelevanceScore` re-splits the raw query without
discarding the leading empty token, takes the multi-word path, and
returns `2 * 400 = 800`. -/
theorem c4_counterexample :
    queryWordsOf " foo" = ["foo"] ∧
      jsIncludes (jsToLower "foo bar") (jsToLower "foo") = true ∧
      getRelevanceScore "foo bar" " foo" false = 800 ∧ (800 : Nat) ≠ 1000 :=
  ⟨by decide, by decide, by decide, by decide⟩

/-- Claim C4, amended: for every query whose RAW whitespace split yields
exactly one token (equivalently, a single-token query with no leading
or trailing whitespace), the relevance score follows the single-token
rule: 10000 for a header containing the query (case-insensitively),
1000 for a non-header containing it, 0 otherwise. -/
theorem c4_corrected_thm (text query : String) (isHdr : Bool)
    (h : (jsSplitWs query).length = 1) :
    getRelevanceScore text query isHdr =
      if jsIncludes (jsToLower text) (jsToLower query) = true then
        (if isHdr then 10000 else 1000)
      else 0 := by
  unfold getRelevanceScore
  rw [if_pos h]
  cases isHdr <;> by_cases hinc : jsIncludes (jsToLower text) (jsToLower query) = true <;>
    simp [hinc]

/-- Claim C4, witness: the single-token query `"router"` scores the
non-header line `"Use a router."` by the single-token rule. -/
theorem c4_corrected_witness :
    (jsSplitWs "router").length = 1 ∧
      getRelevanceScore "Use a router." "router" false =
        (if jsIncludes (jsToLower "Use a router.") (jsToLower "router") = true then
          (if false then 10000 else 1000)
        else 0) :=
  ⟨by decide, c4_corrected_thm "Use a router." "router" false (by decide)⟩

/-- Claim C5, counterexample: the claim says the per-token occurrence
count treats the token as a literal string.  The code builds
`new RegExp(word, 'g')` from the token, so the token `"a.b"` (where
`'.'` is a regex wildcard) counts one occurrence in `"axb"`, although
`"axb"` contains no literal `"a.b"`. -/
theorem c5_counterexample :
    countOccurrences "axb" "a.b" = 1 ∧ literalOccurrenceCount "axb" "a.b" = 0 ∧
      (1 : Nat) ≠ 0 :=
  ⟨by decide, by decide, by decide⟩

/-- Claim C5, amended: for every token containing no regular-expression
metacharacter (modelled here by the absence of `'.'`, the only
metacharacter the embedding interprets), the per-token occurrence count
equals the number of non-overlapping, leftmost, case-insensitive
literal occurrences of the token in the text; in general the token is
interpreted as a regex pattern, and the construction can fail for
malformed patterns, so the claim's literal-string reading does not hold
for arbitrary tokens. -/
theorem c5_corrected_thm (text word : String) (h : '.' ∉ word.data) :
    countOccurrences text word = literalOccurrenceCount text word := by
  unfold countOccurrences literalOccurrenceCount
  by_cases hemp : (jsToLower word).data = []
  · rw [if_pos hemp, if_pos hemp]
  · rw [if_neg hemp, if_neg hemp]
    rw [compilePattern_no_dot _ (jsToLower_no_dot word h)]
    unfold regexCountMatches
    exact countGo_eq (jsToLower word).data (jsToLower text).data.length (jsToLower text).data

/-- Claim C5, witness: the dot-free token `"router"` counts literally. -/
theorem c5_corrected_witness :
    ('.' ∉ ("router" : String).data) ∧
      countOccurrences "Use a router; a ROUTER!" "router" =
        literalOccurrenceCount "Use a router; a ROUTER!" "router" :=
  ⟨by decide, c5_corrected_thm "Use a router; a ROUTER!" "router" (by decide)⟩

/-- Claim C6: a line text qualifying both via the exact-match pass and
via at least one per-token pass appears exactly once in the
deduplicated combined result list, at the position it holds in the
deduplicated exact-match pass (its exact-match rank with later
duplicates by line-text equality removed); the truncated final list
also contains it at most once. -/
theorem c6_confirmed_thm (sections : List DocumentationSection) (query t : String)
    (h1 : t ∈ (exactPass (allContentFor sections query)).map ScoredLine.text)
    (h2 : t ∈ ((queryWordsOf query).flatMap
        (tokenPass (allContentFor sections query))).map ScoredLine.text) :
    (dedupByTextGo [] (combinedFor sections query)).countP
        (fun r => decide (r.text = t)) = 1 ∧
      idxOfText t (dedupByTextGo [] (combinedFor sections query)) =
        idxOfText t (dedupByTextGo [] (exactPass (allContentFor sections query))) ∧
      (uniqueResultsFor sections query).countP (fun r => decide (r.text = t)) ≤ 1 := by
  have hcomb : combinedFor sections query =
      exactPass (allContentFor sections query) ++
        (queryWordsOf query).flatMap (tokenPass (allContentFor sections query)) := rfl
  have hmem : t ∈ (exactPass (allContentFor sections query) ++
      (queryWordsOf query).flatMap (tokenPass (allContentFor sections query))).map
        ScoredLine.text := by
    rw [List.map_append]
    exact List.mem_append_left _ h1
  have hcount : (dedupByTextGo [] (combinedFor sections query)).countP
      (fun r => decide (r.text = t)) = 1 := by
    rw [hcomb, countP_dedup t _ []]
    rw [if_neg (by simp), if_pos hmem]
  refine ⟨hcount, ?_, ?_⟩
  · rw [hcomb, dedup_append]
    have hmd : t ∈ (dedupByTextGo [] (exactPass (allContentFor sections query))).map
        ScoredLine.text :=
      mem_dedup t _ [] (by simp) h1
    rcases idxOfText_isSome t _ hmd with ⟨i, hi⟩
    rw [idxOfText_append t _ _ i hi, hi]
  · have hle := countP_take_le (fun r => decide (r.text = t)) 3
      (dedupByTextGo [] (combinedFor sections query))
    rw [hcount] at hle
    exact hle

/-- Claim C6, witness: in the demo section list, the line
`"Use a router."` qualifies via both passes of the query `"router"` and
sits exactly once, at its exact-match rank. -/
theorem c6_witness :
    ("Use a router." ∈ (exactPass (allContentFor demoSections "router")).map
        ScoredLine.text ∧
      "Use a router." ∈ ((queryWordsOf "router").flatMap
        (tokenPass (allContentFor demoSections "router"))).map ScoredLine.text) ∧
      ((dedupByTextGo [] (combinedFor demoSections "router")).countP
          (fun r => decide (r.text = "Use a router.")) = 1 ∧
        idxOfText "Use a router." (dedupByTextGo [] (combinedFor demoSections "router")) =
          idxOfText "Use a router."
            (dedupByTextGo [] (exactPass (allContentFor demoSections "router"))) ∧
        (uniqueResultsFor demoSections "router").countP
          (fun r => decide (r.text = "Use a router.")) ≤ 1) :=
  ⟨⟨by decide, by decide⟩,
    c6_confirmed_thm demoSections "router" "Use a router." (by decide) (by decide)⟩

/-- Claim C7: a query with zero non-empty tokens after tokenisation
(empty or whitespace-only) makes the search handler return the
invalid-query outcome, for every section list — so no section data is
ever consulted or returned. -/
theorem c7_confirmed_thm (sections : List DocumentationSection) (query : String)
    (h : queryWordsOf query = []) :
    searchDocs sections query = SearchOutcome.invalidQuery := by
  unfold searchDocs
  rw [if_pos h]

/-- Claim C7, witness: the whitespace-only query `"  "` yields the
invalid-query outcome on the demo sections. -/
theorem c7_witness :
    queryWordsOf "  " = [] ∧ searchDocs demoSections "  " = SearchOutcome.invalidQuery :=
  ⟨by decide, c7_confirmed_thm demoSections "  " (by decide)⟩

/-- Claim C8: a query with at least one token whose exact-match pass and
every per-token pass are empty produces the distinguished no-matches
outcome, which differs from the invalid-query outcome. -/
theorem c8_confirmed_thm (sections : List DocumentationSection) (query : String)
    (h1 : queryWordsOf query ≠ [])
    (h2 : exactPass (allContentFor sections query) = [])
    (h3 : ∀ w ∈ queryWordsOf query, tokenPass (allContentFor sections query) w = []) :
    searchDocs sections query = SearchOutcome.noMatches ∧
      SearchOutcome.noMatches ≠ SearchOutcome.invalidQuery := by
  constructor
  · unfold searchDocs
    rw [if_neg h1]
    have hu : uniqueResultsFor sections query = [] := by
      unfold uniqueResultsFor combinedFor
      rw [h2, flatMap_nil _ (queryWordsOf query) h3]
      rfl
    rw [if_pos hu]
  · intro hc
    cases hc

/-- Claim C8, witness: the query `"zzzznotfound"` matches nothing in the
demo sections and yields the no-matches outcome. -/
theorem c8_witness :
    (queryWordsOf "zzzznotfound" ≠ [] ∧
      exactPass (allContentFor demoSections "zzzznotfound") = [] ∧
      ∀ w ∈ queryWordsOf "zzzznotfound",
        tokenPass (allContentFor demoSections "zzzznotfound") w = []) ∧
      (searchDocs demoSections "zzzznotfound" = SearchOutcome.noMatches ∧
        SearchOutcome.noMatches ≠ SearchOutcome.invalidQuery) :=
  ⟨⟨by decide, by decide, by decide⟩,
    c8_confirmed_thm demoSections "zzzznotfound" (by decide) (by decide) (by decide)⟩

/-- Claim C9, counterexample: the raw text `" "` is non-empty and
contains no header line, yet segmentation does not produce one section
— it fails with the no-content-lines error, because every line is blank
after trimming. -/
theorem c9_counterexample :
    (" " : String) ≠ "" ∧
      processDocumentation " " = Except.error "No content lines found in documentation" ∧
      (∀ l ∈ mkLines " ", l.isHeader = false) :=
  ⟨by decide, by decide, by decide⟩

/-- Claim C9, amended: for every raw text with at least one line that is
non-blank after trimming and with no header lines, segmentation
produces exactly one section — the synthetic leading one, id
`start-of-svelte-documentation` — whose content is every non-empty
trimmed line of the input in original order. -/
theorem c9_corrected_thm (content : String)
    (h1 : mkLines content ≠ [])
    (h2 : ∀ l ∈ mkLines content, l.isHeader = false) :
    processDocumentation content =
      Except.ok [{ id := "start-of-svelte-documentation",
                   header := "# Start of Svelte documentation",
                   content := trimmedLines content }] := by
  have hc : content ≠ "" := by
    intro hcc
    rw [hcc] at h1
    exact h1 (by decide)
  have hseg : segmentLines (mkLines content) =
      [{ id := "start-of-svelte-documentation", header := "# Start of Svelte documentation",
         content := trimmedLines content }] := by
    unfold segmentLines
    rw [segFold_no_header (mkLines content) h2 [] initialSection]
    simp [initialSection, synthHeader, mkLines_trim_texts]
  unfold processDocumentation
  rw [if_neg hc, if_neg h1, hseg]
  rw [if_neg (by simp)]

/-- Claim C9, witness: the header-free text `"hello\nworld"` segments
into exactly the synthetic section holding both lines. -/
theorem c9_witness :
    (mkLines "hello\nworld" ≠ [] ∧ ∀ l ∈ mkLines "hello\nworld", l.isHeader = false) ∧
      processDocumentation "hello\nworld" =
        Except.ok [{ id := "start-of-svelte-documentation",
                     header := "# Start of Svelte documentation",
                     content := trimmedLines "hello\nworld" }] :=
  ⟨⟨by decide, by decide⟩, c9_corrected_thm "hello\nworld" (by decide) (by decide)⟩

/-- Claim C10: every section id produced by segmentation is nonempty and
uses only characters in `[a-z0-9-]`; consequently the advertised
header URI `svelte:///section/<id>` appears in the resource listing,
matches the read-resource URI pattern parsing back to exactly that id,
and reading it returns the header of the FIRST section in the list
bearing that id. -/
theorem c10_confirmed_thm (content : String) (sections : List DocumentationSection)
    (sec : DocumentationSection)
    (hok : processDocumentation content = Except.ok sections) (hmem : sec ∈ sections) :
    (sec.id.data ≠ [] ∧ ∀ c ∈ sec.id.data, isSlugChar c) ∧
      ("svelte:///section/" ++ sec.id) ∈ listResources sections ∧
      parseSectionUri ("svelte:///section/" ++ sec.id).data = some (sec.id.data, false) ∧
      ∃ fst, sections.find? (fun s => s.id == sec.id) = some fst ∧
        readResource sections ("svelte:///section/" ++ sec.id) = Except.ok fst.header := by
  have hgood : GoodSlugId sec.id := processDocumentation_good content sections hok sec hmem
  have hparse := parseSectionUri_good sec.id hgood
  refine ⟨hgood, ?_, hparse, ?_⟩
  · unfold listResources
    exact List.mem_flatMap.mpr ⟨sec, hmem, by simp⟩
  · have hsome : (sections.find? (fun s => s.id == sec.id)).isSome = true :=
      List.find?_isSome.mpr ⟨sec, hmem, by simp⟩
    rcases Option.isSome_iff_exists.mp hsome with ⟨fst, hfst⟩
    refine ⟨fst, hfst, ?_⟩
    unfold readResource
    rw [hparse]
    have hmk : String.mk sec.id.data = sec.id := rfl
    simp only [hmk, hfst]
    rfl

/-- Claim C10, witness: the section produced for the header `"# Alpha"`
has the id `"-alpha"`; its advertised URI parses back and reads to its
header. -/
theorem c10_witness :
    (processDocumentation "# Alpha\nBeta" =
        Except.ok
          [{ id := "start-of-svelte-documentation",
             header := "# Start of Svelte documentation", content := [] },
           { id := "-alpha", header := "# Alpha", content := ["Beta"] }] ∧
      ({ id := "-alpha", header := "# Alpha", content := ["Beta"] } : DocumentationSection) ∈
        [{ id := "start-of-svelte-documentation",
           header := "# Start of Svelte documentation", content := [] },
         { id := "-alpha", header := "# Alpha", content := ["Beta"] }]) ∧
      ((("-alpha" : String).data ≠ [] ∧ ∀ c ∈ ("-alpha" : String).data, isSlugChar c) ∧
        ("svelte:///section/" ++ "-alpha") ∈ listResources
          [{ id := "start-of-svelte-documentation",
             header := "# Start of Svelte documentation", content := [] },
           { id := "-alpha", header := "# Alpha", content := ["Beta"] }] ∧
        parseSectionUri ("svelte:///section/" ++ "-alpha").data =
          some (("-alpha" : String).data, false) ∧
        ∃ fst,
          (([{ id := "start-of-svelte-documentation",
               header := "# Start of Svelte documentation", content := [] },
             { id := "-alpha", header := "# Alpha", content := ["Beta"] }] :
              List DocumentationSection).find?
              (fun s => s.id == "-alpha")) = some fst ∧
            readResource
              ([{ id := "start-of-svelte-documentation",
                  header := "# Start of Svelte documentation", content := [] },
                { id := "-alpha", header := "# Alpha", content := ["Beta"] }] :
                List DocumentationSection)
              ("svelte:///section/" ++ "-alpha") = Except.ok fst.header) :=
  ⟨⟨by decide, by decide⟩,
    c10_confirmed_thm "# Alpha\nBeta"
      [{ id := "start-of-svelte-documentation",
         header := "# Start of Svelte documentation", content := [] },
       { id := "-alpha", header := "# Alpha", content := ["Beta"] }]
      { id := "-alpha", header := "# Alpha", content := ["Beta"] }
      (by decide) (by decide)⟩
